import Mathlib

/-!
Verification development for the SPX_project backtest core.

Shallow embedding of the signal-to-return pipeline:
  - src/stats_calculator.py   (calculate_turnover, calculate_statistics)
  - src/backtest.py           (Backtest.run_backtest, calculate_strategy_returns,
                               adjust_returns_for_transaction_costs)
  - src/benchmark.py          (the transaction-cost adjustment step)
  - src/strategy/momentum_sector_LS.py
                              (set_parameters, generate_signals,
                               _determine_window_size)

Pandas Series / DataFrames are modelled as lists (time-indexed data carries an
explicit Nat timestamp as the first component of a pair); machine floats are
modelled as rationals, with NaN modelled as Option.none where the code relies
on NaN propagation.  Statistics whose values require real roots or powers are
real-valued.
-/

namespace SPX

/-! Embedding of stats_calculator.calculate_turnover.
    Python: turnover = positions.diff().abs().sum(axis=1);
            turnover.iloc[0] = positions.iloc[0].abs().sum() -/

/-- Sum of absolute values of one row (pandas .abs().sum(axis=1) on a row). -/
def rowAbsSum (r : List ℚ) : ℚ := (r.map (fun x => |x|)).sum

/-- Element-wise difference of the current row minus the previous row
    (pandas .diff() at one row). -/
def diffRow (prev cur : List ℚ) : List ℚ := List.zipWith (fun c p => c - p) cur prev

/-- Rows t = 1, 2, ... of the turnover series: absolute row differences. -/
def turnoverTail (prev : List ℚ) : List (List ℚ) → List ℚ
  | [] => []
  | r :: rs => rowAbsSum (diffRow prev r) :: turnoverTail r rs

/-- Embedding of calculate_turnover: diff().abs().sum(axis=1) with the first
    entry replaced by the absolute sum of the first row. -/
def calculate_turnover (positions : List (List ℚ)) : List ℚ :=
  match positions with
  | [] => []
  | r0 :: rest => rowAbsSum r0 :: turnoverTail r0 rest

/-! Embedding of Backtest.adjust_returns_for_transaction_costs and of the
    identical formula at the end of Benchmark.calculate_returns. -/

/-- Embedding of Backtest.adjust_returns_for_transaction_costs:
    returns - turnover * (cost_bps / 10000), element-wise over aligned series. -/
def adjust_returns_for_transaction_costs (returns turnover : List ℚ) (cost_bps : ℚ) :
    List ℚ :=
  List.zipWith (fun r t => r - t * (cost_bps / 10000)) returns turnover

/-- Embedding of the cost-adjustment step of Benchmark.calculate_returns
    (benchmark.py lines 60-62): transaction_costs = turnover * (bps / 10000);
    returns = returns - transaction_costs. -/
def benchmarkCostAdjust (returns turnover : List ℚ) (cost_bps : ℚ) : List ℚ :=
  List.zipWith (fun r t => r - t * (cost_bps / 10000)) returns turnover

/-! Trading-frequency enumeration, shared by stats_calculator.calculate_statistics
    (freq_map) and MomentumSectorLongShortStrategy._determine_window_size
    (freq_to_periods): D=252, W=52, 2W=26, M=12. -/

/-- Embedding of Python str.upper() (ASCII data, as the frequency and legs
    codes are). -/
def strUpper (s : String) : String := ⟨s.data.map Char.toUpper⟩

/-- The frequency-to-periods-per-year dictionary used by both modules. -/
def freqMap (f : String) : Option Nat :=
  if f = "D" then some 252
  else if f = "W" then some 52
  else if f = "2W" then some 26
  else if f = "M" then some 12
  else none

/-- Embedding of MomentumSectorLongShortStrategy._determine_window_size:
    window_size = int((11/12) * periods_per_year), clamped below by 1;
    raises ValueError on an unknown frequency.  The float expression
    int((11/12)*p) equals the rational floor 11*p/12 at every value of the
    enumeration (double rounding is exact enough at 12, 26, 52 and 252). -/
def determineWindowSize (f : String) : Except String Nat :=
  match freqMap f with
  | some p => .ok (max (11 * p / 12) 1)
  | none => .error "Invalid trading frequency."

/-! Sector momentum: sector_avg_returns.shift(1).rolling(window=window_size-1,
    min_periods=1).mean() (momentum_sector_LS.py lines 76-77), one column
    (one sector) at a time.  NaN entries are Option.none. -/

/-- Embedding of pandas Series.shift(1): a leading NaN, the last value dropped. -/
def shift1 (xs : List (Option ℚ)) : List (Option ℚ) :=
  match xs with
  | [] => []
  | _ :: _ => none :: xs.dropLast

/-- Mean of the valid observations, NaN (none) when there are no observations:
    the value rolling(...).mean() with min_periods=1 produces for one window. -/
def meanOpt (vals : List ℚ) : Option ℚ :=
  if vals.length = 0 then none else some (vals.sum / vals.length)

/-- Embedding of Series.rolling(window=w, min_periods=1).mean(): at position t
    the mean of the non-NaN values among the last w entries up to t. -/
def rollingMeanMin1 (w : Nat) (xs : List (Option ℚ)) : List (Option ℚ) :=
  (List.range xs.length).map (fun t =>
    meanOpt (((xs.take (t + 1)).drop (t + 1 - w)).filterMap id))

/-- One column of sector_return_momentum: the rolling mean (window w,
    min_periods=1) of the one-period-shifted sector return series. -/
def sectorMomentumCol (w : Nat) (s : List (Option ℚ)) : List (Option ℚ) :=
  rollingMeanMin1 w (shift1 s)

/-- Column-wise momentum over the whole sector-return frame (rows = periods,
    one inner list per period, one column per sector). -/
def sectorMomentumRows (w : Nat) (rows : List (List (Option ℚ))) :
    List (List (Option ℚ)) :=
  (rows.transpose.map (sectorMomentumCol w)).transpose

/-! Per-period sector selection (momentum_sector_LS.py lines 83-97). -/

/-- Embedding of momentum.dropna() for one period row: the (sector index,
    score) pairs whose score is present. -/
def validMomentum (m : List (Option ℚ)) : List (Nat × ℚ) :=
  (List.range m.length).filterMap (fun i => (m.getD i none).map (fun v => (i, v)))

/-- num_selected_sectors = min(self.num_sectors, num_available_sectors // 2). -/
def numSelected (k : Nat) (m : List (Option ℚ)) : Nat :=
  min k ((validMomentum m).length / 2)

/-- Comparator for Series.nlargest: descending by score, stable (keep first). -/
def descLE (a b : Nat × ℚ) : Bool := decide (b.2 ≤ a.2)

/-- Comparator for Series.nsmallest: ascending by score, stable (keep first). -/
def ascLE (a b : Nat × ℚ) : Bool := decide (a.2 ≤ b.2)

/-- Embedding of valid_momentum.nlargest(n).index: the sector indices of the n
    largest scores (stable descending sort, first n entries). -/
def nlargestIdx (n : Nat) (v : List (Nat × ℚ)) : List Nat :=
  ((v.mergeSort descLE).take n).map Prod.fst

/-- Embedding of valid_momentum.nsmallest(n).index. -/
def nsmallestIdx (n : Nat) (v : List (Nat × ℚ)) : List Nat :=
  ((v.mergeSort ascLE).take n).map Prod.fst

/-- One row of a presence matrix: 1 at the selected sector indices, else 0
    (the loop writes 1 into a zero-initialised frame). -/
def presenceRowOf (sel : List Nat) (len : Nat) : List ℚ :=
  (List.range len).map (fun j => if j ∈ sel then (1 : ℚ) else 0)

/-- One row of top_presence_matrix: zero when num_selected_sectors == 0 (the
    loop continues without writing), else the indicator of the top sectors. -/
def topPresenceRow (k : Nat) (m : List (Option ℚ)) : List ℚ :=
  let n := numSelected k m
  if n = 0 then (List.range m.length).map (fun _ => (0 : ℚ))
  else presenceRowOf (nlargestIdx n (validMomentum m)) m.length

/-- One row of bottom_presence_matrix. -/
def bottomPresenceRow (k : Nat) (m : List (Option ℚ)) : List ℚ :=
  let n := numSelected k m
  if n = 0 then (List.range m.length).map (fun _ => (0 : ℚ))
  else presenceRowOf (nsmallestIdx n (validMomentum m)) m.length

/-- Embedding of frame.div(frame.sum(axis=1), axis=0).fillna(0) on one row:
    each entry divided by the row sum, with the 0/0 = NaN case sent to 0. -/
def divRowBySum (row : List ℚ) : List ℚ :=
  let s := row.sum
  row.map (fun x => if s = 0 then 0 else x / s)

/-- One row of long_positions (momentum_sector_LS.py line 96). -/
def longRow (k : Nat) (m : List (Option ℚ)) : List ℚ :=
  divRowBySum (topPresenceRow k m)

/-- One row of short_positions (line 97): the negated normalised bottom row. -/
def shortRow (k : Nat) (m : List (Option ℚ)) : List ℚ :=
  (divRowBySum (bottomPresenceRow k m)).map (fun x => -x)

/-! Configuration (momentum_sector_LS.py set_parameters) and signal
    generation.  Dates are modelled as Nat ordinals (pd.to_datetime is a
    monotone injection of date strings). -/

/-- The parameters stored by set_parameters. -/
structure Params where
  num_sectors : Nat
  trading_frequency : String
  start_date : Nat
  end_date : Option Nat
  invert_long : Bool
  invert_short : Bool
  legs : String
deriving DecidableEq, Repr

/-- Accepted values of the legs parameter. -/
def validLegs : List String := ["L", "S", "LS", "ALL"]

/-- Embedding of set_parameters: stores the keyword arguments (uppercasing the
    frequency and the legs code) and validates only the legs code; no other
    validation is performed. -/
def set_parameters (num_sectors : Nat) (trading_frequency : String)
    (start_date : Nat) (end_date : Option Nat)
    (invert_long invert_short : Bool) (legs : String) : Except String Params :=
  let legsU := strUpper legs
  if legsU ∈ validLegs then
    .ok ⟨num_sectors, strUpper trading_frequency, start_date, end_date,
         invert_long, invert_short, legsU⟩
  else
    .error "Invalid legs parameter."

/-- The date mask of generate_signals: start_date <= t, and t <= end_date when
    an end date is configured. -/
def dateMask (start : Nat) (endD : Option Nat) (t : Nat) : Bool :=
  match endD with
  | some e => decide (start ≤ t) && decide (t ≤ e)
  | none => decide (start ≤ t)

/-- Negate every entry of a weight frame (the invert_long / invert_short step). -/
def applyInvert (b : Bool) (rows : List (List ℚ)) : List (List ℚ) :=
  if b then rows.map (fun r => r.map (fun x => -x)) else rows

/-- The position matrices produced by generate_signals (stored per leg; in
    ALL mode the code keeps all three). -/
structure Signals where
  index : List Nat
  long : List (List ℚ)
  short : List (List ℚ)
  combined : List (List ℚ)
deriving DecidableEq, Repr

/-- Embedding of generate_signals from the sector-average-return frame onward:
    date filtering, momentum (rolling window window_size - 1 of the shifted
    series), per-period selection, equal weighting, optional inversion and the
    combined matrix.  sectorData carries one (timestamp, sector-return row)
    pair per resampled period. -/
def generateSignals (p : Params) (sectorData : List (Nat × List (Option ℚ))) :
    Except String Signals :=
  match determineWindowSize p.trading_frequency with
  | .error e => .error e
  | .ok w =>
    let filtered := sectorData.filter (fun q => dateMask p.start_date p.end_date q.1)
    let idx := filtered.map Prod.fst
    let rows := filtered.map Prod.snd
    let mom := sectorMomentumRows (w - 1) rows
    let longM := applyInvert p.invert_long (mom.map (longRow p.num_sectors))
    let shortM := applyInvert p.invert_short (mom.map (shortRow p.num_sectors))
    let combined := List.zipWith (List.zipWith (fun a b => a + b)) longM shortM
    .ok ⟨idx, longM, shortM, combined⟩

/-! Embedding of stats_calculator.calculate_statistics. -/

/-- Does the activity mask mark timestamp t active: the presence row at t has
    positive cross-asset sum; a timestamp missing from the mask (NaN row after
    reindexing) is inactive. -/
def activeAt (presence : List (Nat × List ℚ)) (t : Nat) : Bool :=
  match presence.lookup t with
  | some row => decide (0 < row.sum)
  | none => false

/-- Restrict a timestamped series to the periods the mask marks active. -/
def filterActive (presence : List (Nat × List ℚ)) (xs : List (Nat × ℚ)) :
    List (Nat × ℚ) :=
  xs.filter (fun q => activeAt presence q.1)

/-- The values of a timestamped series. -/
def seriesVals (xs : List (Nat × ℚ)) : List ℚ := xs.map Prod.snd

/-- total_return = (1 + returns).prod(). -/
def totalReturn (rs : List ℚ) : ℚ := (rs.map (fun r => 1 + r)).prod

/-- Embedding of the annualized geometric return: total_return ** (1/num_years)
    - 1 where num_years = n / periods_per_year, and 0 when num_years == 0. -/
noncomputable def annualizedReturn (ppy : Nat) (rs : List ℚ) : ℝ :=
  if rs.length = 0 then 0
  else ((totalReturn rs : ℝ)) ^ ((ppy : ℝ) / (rs.length : ℝ)) - 1

/-- Embedding of returns.std() * sqrt(periods_per_year): the sample standard
    deviation (ddof = 1, NaN for fewer than two observations) annualized. -/
noncomputable def annualizedStd (ppy : Nat) (rs : List ℚ) : Option ℝ :=
  if rs.length < 2 then none
  else
    let n : ℚ := rs.length
    let mu : ℚ := rs.sum / n
    let v : ℚ := ((rs.map (fun x => (x - mu) ^ 2)).sum) / (n - 1)
    some (Real.sqrt (v : ℝ) * Real.sqrt (ppy : ℝ))

/-- Embedding of the Sharpe ratio line: annualized_return / annualized_std if
    annualized_std != 0 else nan; a NaN annualized_std also yields NaN. -/
noncomputable def sharpeRatio (ppy : Nat) (rs : List ℚ) : Option ℝ :=
  match annualizedStd ppy rs with
  | none => none
  | some s => if s = 0 then none else some (annualizedReturn ppy rs / s)

/-- Embedding of scipy.stats.skew (bias=True): m3 / m2 ** 1.5 with the central
    moments of the raw return series; NaN on an empty or constant series. -/
noncomputable def skewness (rs : List ℚ) : Option ℝ :=
  if rs.length = 0 then none
  else
    let n : ℚ := rs.length
    let mu : ℚ := rs.sum / n
    let m2 : ℚ := ((rs.map (fun x => (x - mu) ^ 2)).sum) / n
    let m3 : ℚ := ((rs.map (fun x => (x - mu) ^ 3)).sum) / n
    if m2 = 0 then none
    else some ((m3 : ℝ) / ((m2 : ℝ)) ^ ((3 : ℝ) / 2))

/-- Embedding of pandas cumprod on a list. -/
def cumprod (xs : List ℚ) : List ℚ :=
  (xs.scanl (fun acc x => acc * x) 1).tail

/-- Embedding of pandas cummax on a list. -/
def cummax (xs : List ℚ) : List ℚ :=
  match xs with
  | [] => []
  | x :: rest => rest.scanl (fun a b => max a b) x

/-- Embedding of the max-drawdown block: cumulative = (1+returns).cumprod();
    peak = cumulative.cummax(); min of (cumulative - peak)/peak; NaN (none)
    on an empty series. -/
def maxDrawdown (rs : List ℚ) : Option ℚ :=
  let c := cumprod (rs.map (fun r => 1 + r))
  let p := cummax c
  (List.zipWith (fun ci pi => (ci - pi) / pi) c p).min?

/-- Embedding of the average-turnover block: turnover.mean() when a turnover
    series was supplied (NaN when it is empty), NaN otherwise. -/
def averageTurnover (ts : Option (List ℚ)) : Option ℚ :=
  match ts with
  | none => none
  | some l => if l.length = 0 then none else some (l.sum / l.length)

/-- The labeled statistics record built by calculate_statistics, keyed exactly
    as the Python dict; NaN values are none. -/
noncomputable def calcStatsCore (ppy : Nat) (rvals : List ℚ)
    (tvals : Option (List ℚ)) : List (String × Option ℝ) :=
  [("Annualized Return (%)", some (annualizedReturn ppy rvals * 100)),
   ("Annualized Sharpe Ratio", sharpeRatio ppy rvals),
   ("Skewness", skewness rvals),
   ("Max Drawdown (%)", (maxDrawdown rvals).map (fun d => (d : ℝ) * 100)),
   ("Average Turnover (%)", (averageTurnover tvals).map (fun a => (a : ℝ) * 100))]

/-- Embedding of calculate_statistics: optional activity-mask filtering of the
    return and turnover series, frequency lookup (ValueError on an unknown
    frequency), then the statistics record. -/
noncomputable def calculate_statistics (returns : List (Nat × ℚ))
    (turnover : Option (List (Nat × ℚ))) (trading_frequency : String)
    (presence : Option (List (Nat × List ℚ))) :
    Except String (List (String × Option ℝ)) :=
  let returnsF := match presence with
    | some pm => filterActive pm returns
    | none => returns
  let turnoverF := match presence with
    | some pm => turnover.map (filterActive pm)
    | none => turnover
  match freqMap (strUpper trading_frequency) with
  | none => .error "Invalid trading frequency."
  | some ppy => .ok (calcStatsCore ppy (seriesVals returnsF) (turnoverF.map seriesVals))

/-! Embedding of backtest.py: the Results Collection. -/

/-- One entry of the Results Collection. -/
structure Entry where
  returns : List ℚ
  turnover : List ℚ
  trading_frequency : String
deriving DecidableEq, Repr

/-- The legs configuration codes ('L', 'S', 'LS', 'ALL'). -/
inductive LegMode
  | L
  | S
  | LS
  | ALL
deriving DecidableEq, Repr

/-- A strategy after generate_signals, as calculate_strategy_returns consumes
    it: its name, legs mode, per-leg position matrices, the asset-return frame
    used to value them, its trading frequency and configured cost. -/
structure StrategyRun where
  name : String
  legs : LegMode
  longP : List (List ℚ)
  shortP : List (List ℚ)
  combinedP : List (List ℚ)
  asset_returns : List (List ℚ)
  trading_frequency : String
  cost_bps : ℚ
deriving DecidableEq, Repr

/-- The (leg label, positions) pairs calculate_strategy_returns iterates over:
    the positions dict in ALL mode, else the single leg with its long label
    from the mapping L -> Long, S -> Short, LS -> Combined. -/
def legPositions (s : StrategyRun) : List (String × List (List ℚ)) :=
  match s.legs with
  | .ALL => [("Long", s.longP), ("Short", s.shortP), ("Combined", s.combinedP)]
  | .L => [("Long", s.longP)]
  | .S => [("Short", s.shortP)]
  | .LS => [("Combined", s.combinedP)]

/-- One period's valuation: sum over assets of asset_return * position. -/
def dotRow (a b : List ℚ) : ℚ := (List.zipWith (fun x y => x * y) a b).sum

/-- strategy_returns = (asset_returns * positions).sum(axis=1). -/
def strategyReturnSeries (asset_returns positions : List (List ℚ)) : List ℚ :=
  List.zipWith dotRow asset_returns positions

/-- Embedding of Backtest.calculate_strategy_returns: per leg, turnover,
    valued returns, cost adjustment, keyed by name ++ " - " ++ leg label. -/
def calculate_strategy_returns (s : StrategyRun) : List (String × Entry) :=
  (legPositions s).map (fun q =>
    let turnover := calculate_turnover q.2
    let strat_rets := strategyReturnSeries s.asset_returns q.2
    let adjusted := adjust_returns_for_transaction_costs strat_rets turnover s.cost_bps
    (s.name ++ " - " ++ q.1, ⟨adjusted, turnover, s.trading_frequency⟩))

/-- Python dict insertion (insert or overwrite) on an ordered association list. -/
def dictInsert (d : List (String × Entry)) (k : String) (v : Entry) :
    List (String × Entry) :=
  match d with
  | [] => [(k, v)]
  | (k', v') :: rest => if k' = k then (k, v) :: rest else (k', v') :: dictInsert rest k v

/-- Python dict.update: insert every pair of the new mapping in order. -/
def dictUpdate (d : List (String × Entry)) (new : List (String × Entry)) :
    List (String × Entry) :=
  new.foldl (fun acc q => dictInsert acc q.1 q.2) d

/-- Python dict lookup on the association-list model. -/
def dictLookup (k : String) : List (String × Entry) → Option Entry
  | [] => none
  | (k', v) :: rest => if k' = k then some v else dictLookup k rest

/-- Lookup on the statistics record. -/
def statsLookup (k : String) : List (String × Option ℝ) → Option (Option ℝ)
  | [] => none
  | (k', v) :: rest => if k' = k then some v else statsLookup k rest

/-- Embedding of Backtest.run_backtest: seed the Results Collection with the
    benchmark under the key 'Benchmark', then merge every strategy's per-leg
    entries. -/
def run_backtest (benchmark : Entry) (strategies : List StrategyRun) :
    List (String × Entry) :=
  strategies.foldl (fun acc s => dictUpdate acc (calculate_strategy_returns s))
    [("Benchmark", benchmark)]

end SPX

namespace SPX

/-! Helper lemmas. -/

/-- The absolute row sum as an indexed sum over the row's positions. -/
lemma rowAbsSum_eq (r : List ℚ) :
    rowAbsSum r = ∑ j ∈ Finset.range r.length, |r.getD j 0| := by
  induction r with
  | nil => simp [rowAbsSum]
  | cons a l ih =>
    rw [show (a :: l).length = l.length + 1 from rfl, Finset.sum_range_succ']
    simp only [List.getD_cons_succ, List.getD_cons_zero]
    simp [rowAbsSum] at ih ⊢
    rw [ih, add_comm]

lemma diffRow_length (a b : List ℚ) : (diffRow a b).length = min b.length a.length := by
  simp [diffRow]

/-- The absolute row sum of a row difference, as an indexed sum. -/
lemma rowAbsSum_diffRow (a b : List ℚ) (m : Nat) (ha : a.length = m)
    (hb : b.length = m) :
    rowAbsSum (diffRow a b) = ∑ j ∈ Finset.range m, |b.getD j 0 - a.getD j 0| := by
  rw [rowAbsSum_eq]
  have hl : (diffRow a b).length = m := by simp [diffRow, ha, hb]
  rw [hl]
  refine Finset.sum_congr rfl (fun j hj => ?_)
  have hj' : j < m := Finset.mem_range.mp hj
  rw [List.getD_eq_getElem _ _ (by rw [hl]; exact hj'),
      List.getD_eq_getElem _ _ (by rw [hb]; exact hj'),
      List.getD_eq_getElem _ _ (by rw [ha]; exact hj')]
  simp [diffRow]

lemma turnoverTail_length (prev : List ℚ) (rest : List (List ℚ)) :
    (turnoverTail prev rest).length = rest.length := by
  induction rest generalizing prev with
  | nil => rfl
  | cons r rs ih => simp [turnoverTail, ih]

lemma turnoverTail_get? (prev : List ℚ) (rest : List (List ℚ)) (t : Nat)
    (h : t < rest.length) :
    (turnoverTail prev rest).get? t =
      some (rowAbsSum (diffRow ((prev :: rest).getD t []) (rest.getD t []))) := by
  induction rest generalizing prev t with
  | nil => simp at h
  | cons r rs ih =>
    cases t with
    | zero => simp [turnoverTail]
    | succ n =>
      have hn : n < rs.length := by simpa using h
      simpa [turnoverTail] using ih r n hn

/-- C2: calculate_turnover starts with the absolute sum of the initial book and
    continues with the absolute element-wise change between consecutive rows;
    on the positions [[1,0],[0,1],[0,1]] it yields [1, 2, 0]. -/
theorem c2_turnover_identity :
    (∀ (ps : List (List ℚ)) (m : Nat), ps ≠ [] → (∀ r ∈ ps, r.length = m) →
      (calculate_turnover ps).length = ps.length ∧
      (calculate_turnover ps).get? 0 =
        some (∑ j ∈ Finset.range m, |(ps.getD 0 []).getD j 0|) ∧
      (∀ t, t + 1 < ps.length →
        (calculate_turnover ps).get? (t + 1) =
          some (∑ j ∈ Finset.range m,
            |(ps.getD (t + 1) []).getD j 0 - (ps.getD t []).getD j 0|))) ∧
    calculate_turnover [[1, 0], [0, 1], [0, 1]] = [1, 2, 0] := by
  constructor
  · intro ps m hne hlen
    match ps, hne with
    | r0 :: rest, _ =>
      have hr0 : r0.length = m := hlen r0 (by simp)
      refine ⟨by simp [calculate_turnover, turnoverTail_length], ?_, ?_⟩
      · have : rowAbsSum r0 = ∑ j ∈ Finset.range m, |r0.getD j 0| := by
          rw [rowAbsSum_eq, hr0]
        simp [calculate_turnover, this]
      · intro t ht
        have ht' : t < rest.length := by simpa using ht
        have hmain : (calculate_turnover (r0 :: rest)).get? (t + 1) =
            (turnoverTail r0 rest).get? t := by
          simp [calculate_turnover]
        rw [hmain, turnoverTail_get? r0 rest t ht']
        have ht2 : t < (r0 :: rest).length := by
          simp only [List.length_cons]; omega
        have hprev : ((r0 :: rest).getD t []).length = m := by
          rw [List.getD_eq_getElem _ _ ht2]
          exact hlen _ (List.getElem_mem ht2)
        have hcur : (rest.getD t []).length = m := by
          rw [List.getD_eq_getElem _ _ ht']
          exact hlen _ (List.mem_cons_of_mem _ (List.getElem_mem ht'))
        rw [rowAbsSum_diffRow _ _ m hprev hcur]
        have hshift : (r0 :: rest).getD (t + 1) [] = rest.getD t [] := rfl
        rw [hshift]
  · norm_num [calculate_turnover, turnoverTail, rowAbsSum, diffRow]

/-- Witness for C2 at the spec scenario. -/
theorem c2_turnover_identity_witness :
    (calculate_turnover [[1, 0], [0, 1], [0, 1]]).get? 1 = some 2 := by
  have h := (c2_turnover_identity.1 [[1, 0], [0, 1], [0, 1]] 2 (by decide)
    (by decide)).2.2 0 (by decide)
  rw [h]
  norm_num [Finset.sum_range_succ]

/-- C3: cost adjustment is exactly returns - turnover * (cost_bps/10000) at
    every period, the benchmark applies the identical formula, every strategy
    leg's stored returns come from the same function, and zero cost leaves the
    raw returns unchanged. -/
theorem c3_cost_adjustment :
    (∀ (r t : List ℚ) (bps : ℚ) (i : Nat), i < r.length → i < t.length →
      (adjust_returns_for_transaction_costs r t bps).get? i =
        some (r.getD i 0 - t.getD i 0 * (bps / 10000))) ∧
    (∀ r t : List ℚ, r.length = t.length →
      adjust_returns_for_transaction_costs r t 0 = r) ∧
    (∀ (r t : List ℚ) (bps : ℚ),
      benchmarkCostAdjust r t bps = adjust_returns_for_transaction_costs r t bps) ∧
    (∀ s : StrategyRun,
      (calculate_strategy_returns s).map (fun q => q.2.returns) =
        (legPositions s).map (fun q =>
          adjust_returns_for_transaction_costs
            (strategyReturnSeries s.asset_returns q.2)
            (calculate_turnover q.2) s.cost_bps)) := by
  refine ⟨?_, ?_, fun r t bps => rfl, fun s => by simp [calculate_strategy_returns]⟩
  · intro r t bps i hir hit
    have hlen : i < (adjust_returns_for_transaction_costs r t bps).length := by
      simp [adjust_returns_for_transaction_costs]
      omega
    rw [List.get?_eq_getElem?, List.getElem?_eq_getElem hlen]
    simp [adjust_returns_for_transaction_costs,
      List.getElem?_eq_getElem hir, List.getElem?_eq_getElem hit]
  · intro r t hlen
    induction r generalizing t with
    | nil => rfl
    | cons a l ih =>
      cases t with
      | nil => simp at hlen
      | cons b tl =>
        have : l.length = tl.length := by simpa using hlen
        simp [adjust_returns_for_transaction_costs] at ih ⊢
        exact ih tl this

/-- Witness for C3 at concrete series. -/
theorem c3_cost_adjustment_witness :
    (adjust_returns_for_transaction_costs [1/2] [2] 5).get? 0 =
      some ((1 : ℚ)/2 - 2 * (5/10000)) ∧
    adjust_returns_for_transaction_costs [1/2, 3] [2, 4] 0 = [1/2, 3] := by
  exact ⟨c3_cost_adjustment.1 [1/2] [2] 5 0 (by decide) (by decide),
    c3_cost_adjustment.2.1 [1/2, 3] [2, 4] (by decide)⟩

end SPX

namespace SPX

/-- C7: the periods-per-year enumeration is exactly D=252, W=52, 2W=26, M=12,
    and both the momentum window computation and the statistics computation
    fail with the invalid-configuration error precisely on frequencies outside
    it (the statistics path uppercases its argument first, the strategy stores
    an already-uppercased frequency). -/
theorem c7_frequency_enumeration :
    (∀ (f : String) (p : Nat), freqMap f = some p ↔
      ((f = "D" ∧ p = 252) ∨ (f = "W" ∧ p = 52) ∨
       (f = "2W" ∧ p = 26) ∨ (f = "M" ∧ p = 12))) ∧
    (∀ f : String,
      determineWindowSize f = .error "Invalid trading frequency." ↔ freqMap f = none) ∧
    (∀ (f : String) (returns : List (Nat × ℚ)) (turnover : Option (List (Nat × ℚ)))
      (presence : Option (List (Nat × List ℚ))),
      (∃ e, calculate_statistics returns turnover f presence = .error e) ↔
        freqMap (strUpper f) = none) := by
  refine ⟨?_, ?_, ?_⟩
  · intro f p
    unfold freqMap
    split_ifs with h1 h2 h3 h4 <;> simp_all [eq_comm]
  · intro f
    unfold determineWindowSize
    cases h : freqMap f <;> simp [h]
  · intro f returns turnover presence
    unfold calculate_statistics
    cases h : freqMap (strUpper f) <;> simp [h]

/-- Idempotence of the activity-mask restriction. -/
lemma filterActive_idem (pm : List (Nat × List ℚ)) (xs : List (Nat × ℚ)) :
    filterActive pm (filterActive pm xs) = filterActive pm xs := by
  simp [filterActive, List.filter_filter]

/-- C8: computing statistics on an already-mask-filtered return/turnover series
    with the same mask supplied again yields exactly the same record as one
    pass of calculate_statistics on the raw series. -/
theorem c8_mask_idempotence :
    ∀ (returns : List (Nat × ℚ)) (turnover : Option (List (Nat × ℚ)))
      (f : String) (pm : List (Nat × List ℚ)),
      calculate_statistics (filterActive pm returns) (turnover.map (filterActive pm))
          f (some pm) =
        calculate_statistics returns turnover f (some pm) := by
  intro returns turnover f pm
  cases turnover <;> simp [calculate_statistics, filterActive_idem]

/-- C9: calculate_statistics reports the annualized return, max drawdown and
    average turnover scaled by 100 under keys labeled (%), reports the Sharpe
    ratio and skewness unscaled, and reports NaN average turnover when no
    turnover series was supplied. -/
theorem c9_percent_scaling :
    ∀ (ppy : Nat) (rv : List ℚ) (tv : Option (List ℚ)),
      statsLookup "Annualized Return (%)" (calcStatsCore ppy rv tv) =
        some (some (annualizedReturn ppy rv * 100)) ∧
      statsLookup "Max Drawdown (%)" (calcStatsCore ppy rv tv) =
        some ((maxDrawdown rv).map (fun d => (d : ℝ) * 100)) ∧
      statsLookup "Average Turnover (%)" (calcStatsCore ppy rv tv) =
        some ((averageTurnover tv).map (fun a => (a : ℝ) * 100)) ∧
      statsLookup "Annualized Sharpe Ratio" (calcStatsCore ppy rv tv) =
        some (sharpeRatio ppy rv) ∧
      statsLookup "Skewness" (calcStatsCore ppy rv tv) = some (skewness rv) ∧
      (tv = none →
        statsLookup "Average Turnover (%)" (calcStatsCore ppy rv tv) = some none) := by
  intro ppy rv tv
  refine ⟨by simp [calcStatsCore, statsLookup], by simp [calcStatsCore, statsLookup],
    by simp [calcStatsCore, statsLookup], by simp [calcStatsCore, statsLookup],
    by simp [calcStatsCore, statsLookup], ?_⟩
  intro h
  subst h
  simp [calcStatsCore, statsLookup, averageTurnover]

/-- Witness for C9: with no turnover series the average-turnover entry is NaN. -/
theorem c9_percent_scaling_witness :
    statsLookup "Average Turnover (%)" (calcStatsCore 12 [] none) = some none :=
  (c9_percent_scaling 12 [] none).2.2.2.2.2 rfl

/-- A strategy-leg key always contains the separator, so it can never equal
    the reserved benchmark key (which contains no space). -/
lemma sep_key_ne_benchmark (a b : String) : a ++ " - " ++ b ≠ "Benchmark" := by
  intro h
  have hmem : ' ' ∈ (a ++ " - " ++ b).data := by
    rw [show (a ++ " - " ++ b).data = (a.data ++ " - ".data) ++ b.data from rfl]
    refine List.mem_append.mpr (Or.inl (List.mem_append.mpr (Or.inr ?_)))
    decide
  rw [h] at hmem
  exact absurd hmem (by decide)

lemma dictLookup_dictInsert_ne (d : List (String × Entry)) (k : String) (v : Entry)
    (k0 : String) (h : k ≠ k0) :
    dictLookup k0 (dictInsert d k v) = dictLookup k0 d := by
  induction d with
  | nil => simp [dictInsert, dictLookup, h]
  | cons q rest ih =>
    obtain ⟨k', v'⟩ := q
    by_cases hk : k' = k
    · subst hk
      simp [dictInsert, dictLookup, h]
    · by_cases hk0 : k' = k0 <;> simp [dictInsert, dictLookup, hk, hk0, ih, Ne.symm h]

lemma dictLookup_dictUpdate_ne (d : List (String × Entry))
    (new : List (String × Entry)) (k0 : String) (h : ∀ q ∈ new, q.1 ≠ k0) :
    dictLookup k0 (dictUpdate d new) = dictLookup k0 d := by
  induction new generalizing d with
  | nil => rfl
  | cons q rest ih =>
    rw [show dictUpdate d (q :: rest) = dictUpdate (dictInsert d q.1 q.2) rest from rfl]
    rw [ih _ (fun p hp => h p (List.mem_cons_of_mem _ hp))]
    exact dictLookup_dictInsert_ne _ _ _ _ (h q (List.mem_cons_self _ _))

/-- C10: after run_backtest, the key 'Benchmark' still maps to the benchmark
    entry, whatever the strategies are, because every strategy-leg key has the
    form name ++ " - " ++ leg and so always contains the separator, which the
    key 'Benchmark' does not. -/
theorem c10_benchmark_reserved_key :
    ∀ (benchmark : Entry) (strategies : List StrategyRun),
      (∀ s ∈ strategies, ∀ q ∈ calculate_strategy_returns s,
        ∃ a b, q.1 = a ++ " - " ++ b) ∧
      dictLookup "Benchmark" (run_backtest benchmark strategies) = some benchmark := by
  intro benchmark strategies
  constructor
  · intro s _ q hq
    simp only [calculate_strategy_returns, List.mem_map] at hq
    obtain ⟨⟨lbl, pos⟩, _, heq⟩ := hq
    exact ⟨s.name, lbl, by rw [← heq]⟩
  · have key : ∀ (strats : List StrategyRun) (d : List (String × Entry)),
        dictLookup "Benchmark"
            (strats.foldl (fun acc s => dictUpdate acc (calculate_strategy_returns s)) d) =
          dictLookup "Benchmark" d := by
      intro strats
      induction strats with
      | nil => intro d; rfl
      | cons s rest ih =>
        intro d
        rw [List.foldl_cons, ih]
        refine dictLookup_dictUpdate_ne _ _ _ (fun q hq => ?_)
        simp only [calculate_strategy_returns, List.mem_map] at hq
        obtain ⟨⟨lbl, pos⟩, _, heq⟩ := hq
        rw [← heq]
        exact sep_key_ne_benchmark _ _
    rw [run_backtest, key]
    simp [dictLookup]

/-- Witness for C10 with a concrete benchmark entry and one strategy. -/
theorem c10_benchmark_reserved_key_witness :
    dictLookup "Benchmark"
        (run_backtest ⟨[1], [1], "M"⟩
          [⟨"Momentum", .L, [[1]], [], [], [[1]], "M", 0⟩]) = some ⟨[1], [1], "M"⟩ ∧
    ∃ a b,
      ((calculate_strategy_returns ⟨"Momentum", .L, [[1]], [], [], [[1]], "M", 0⟩).headD
          ("", ⟨[], [], ""⟩)).1 = a ++ " - " ++ b := by
  refine ⟨(c10_benchmark_reserved_key _ _).2, ?_⟩
  refine (c10_benchmark_reserved_key ⟨[1], [1], "M"⟩
    [⟨"Momentum", .L, [[1]], [], [], [[1]], "M", 0⟩]).1 _ (List.mem_cons_self _ _) _ ?_
  exact List.mem_cons_self _ _

end SPX

namespace SPX

lemma sectorMomentumRows_nil (w : Nat) : sectorMomentumRows w [] = [] := rfl

/-- C6 (amended): an end date strictly before the start date is accepted, not
    rejected: set_parameters validates only the legs code (so it succeeds for
    any date pair), and generate_signals proceeds with a date mask that selects
    no periods, producing empty position matrices without raising any error. -/
theorem c6_no_date_validation :
    (∀ (ns : Nat) (f : String) (sd : Nat) (ed : Option Nat) (il isrt : Bool),
      ∃ p, set_parameters ns f sd ed il isrt "ALL" = .ok p) ∧
    (∀ (p : Params) (e w : Nat) (data : List (Nat × List (Option ℚ))),
      p.end_date = some e → e < p.start_date →
      determineWindowSize p.trading_frequency = .ok w →
      generateSignals p data = .ok ⟨[], [], [], []⟩) := by
  constructor
  · intro ns f sd ed il isrt
    exact ⟨_, rfl⟩
  · intro p e w data hend hlt hw
    unfold generateSignals
    rw [hw]
    have hfilter : data.filter (fun q => dateMask p.start_date p.end_date q.1) = [] := by
      refine List.filter_eq_nil_iff.mpr (fun q _ => ?_)
      rw [hend]
      simp only [dateMask, Bool.and_eq_true, decide_eq_true_eq, not_and]
      omega
    rw [hfilter]
    cases hil : p.invert_long <;> cases his : p.invert_short <;>
      simp [applyInvert, sectorMomentumRows_nil]

/-- Witness for C6 (amended) at a concrete inverted date range. -/
theorem c6_no_date_validation_witness :
    generateSignals ⟨5, "M", 2, some 1, false, false, "ALL"⟩
        [(3, [some 1]), (0, [some 2])] = .ok ⟨[], [], [], []⟩ :=
  c6_no_date_validation.2 ⟨5, "M", 2, some 1, false, false, "ALL"⟩ 1 11
    [(3, [some 1]), (0, [some 2])] rfl (by decide) rfl

/-- Counterexample to C6 as stated: a configuration whose end date (day 1)
    precedes its start date (day 2) does not fail fast with a configuration
    error; parameter validation succeeds and signal generation completes,
    returning empty output. -/
theorem c6_counterexample :
    set_parameters 5 "M" 2 (some 1) false false "ALL" =
      .ok ⟨5, "M", 2, some 1, false, false, "ALL"⟩ ∧
    generateSignals ⟨5, "M", 2, some 1, false, false, "ALL"⟩
        [(3, [some 1])] = .ok ⟨[], [], [], []⟩ := by
  constructor
  · rfl
  · rfl

end SPX

namespace SPX

lemma shift1_length (s : List (Option ℚ)) : (shift1 s).length = s.length := by
  cases s with
  | nil => rfl
  | cons x rest => simp [shift1, List.length_dropLast]

lemma shift1_take (s : List (Option ℚ)) (t : Nat) (h : t < s.length) :
    (shift1 s).take (t + 1) = none :: s.take t := by
  match s with
  | [] => simp at h
  | x :: rest =>
    show (none :: (x :: rest).dropLast).take (t + 1) = none :: (x :: rest).take t
    rw [List.take_succ_cons]
    rw [List.dropLast_eq_take, List.take_take,
      min_eq_left (by simp at h ⊢; omega : t ≤ (x :: rest).length - 1)]

/-- The valid observations inside a rolling window of the shifted series come
    from the periods of the raw series strictly before the current one. -/
lemma momentum_window_eq (W : Nat) (s : List (Option ℚ)) (t : Nat)
    (h : t < s.length) :
    (((shift1 s).take (t + 1)).drop (t + 1 - W)).filterMap id =
      ((s.take t).drop (t - W)).filterMap id := by
  rw [shift1_take s t h]
  rcases le_or_lt W t with hW | hW
  · have h1 : t + 1 - W = (t - W) + 1 := by omega
    rw [h1, List.drop_succ_cons]
  · have h1 : t + 1 - W = 0 := by omega
    have h2 : t - W = 0 := by omega
    rw [h1, h2, List.drop_zero, List.drop_zero]
    simp

/-- C1 (amended): the rolling momentum window is int((11/12) * ppy) - 1
    periods (truncation, not rounding): 10 for Monthly, 46 for Weekly, 22 for
    BiWeekly, 230 for Daily; and the momentum score at period t is the mean of
    the valid sector returns among the up to W periods ending at t - 1, so it
    never includes period t's return. -/
theorem c1_momentum_window :
    ((determineWindowSize "M").map (fun w => w - 1) = .ok 10 ∧
     (determineWindowSize "W").map (fun w => w - 1) = .ok 46 ∧
     (determineWindowSize "2W").map (fun w => w - 1) = .ok 22 ∧
     (determineWindowSize "D").map (fun w => w - 1) = .ok 230) ∧
    (∀ (W : Nat) (s : List (Option ℚ)) (t : Nat), t < s.length →
      (sectorMomentumCol W s).get? t =
        some (meanOpt (((s.take t).drop (t - W)).filterMap id))) := by
  refine ⟨⟨rfl, rfl, rfl, rfl⟩, ?_⟩
  intro W s t h
  unfold sectorMomentumCol rollingMeanMin1
  rw [List.get?_eq_getElem?, List.getElem?_map, shift1_length,
    List.getElem?_range h]
  simp [momentum_window_eq W s t h]

/-- Witness for C1 (amended): a two-period series, window 10; the score at
    period 1 is the return of period 0 alone. -/
theorem c1_momentum_window_witness :
    (sectorMomentumCol 10 [some 1, some 2]).get? 1 = some (some 1) := by
  have h := c1_momentum_window.2 10 [some 1, some 2] 1 (by decide)
  rw [h]
  refine congrArg some ?_
  simp [meanOpt]

/-- Counterexample to C1 as stated: the rolling window for Weekly trading is
    46 periods, not round((11/12)*52) - 1 = 47, and for BiWeekly it is 22, not
    23: the code truncates (int) where the claim rounds. -/
theorem c1_counterexample :
    ((determineWindowSize "W").map (fun w => w - 1) = .ok 46 ∧
      ¬ (determineWindowSize "W").map (fun w => w - 1) = .ok 47) ∧
    ((determineWindowSize "2W").map (fun w => w - 1) = .ok 22 ∧
      ¬ (determineWindowSize "2W").map (fun w => w - 1) = .ok 23) := by
  refine ⟨⟨rfl, fun h => ?_⟩, ⟨rfl, fun h => ?_⟩⟩
  · exact absurd (Except.ok.inj h) (by decide)
  · exact absurd (Except.ok.inj h) (by decide)

end SPX

namespace SPX

/-! Selection lemmas for C4 and C5. -/

lemma filterMap_pair_fst_sublist (f : Nat → Option ℚ) (l : List Nat) :
    ((l.filterMap (fun i => (f i).map (fun v => (i, v)))).map Prod.fst).Sublist l := by
  induction l with
  | nil => simp
  | cons i l ih =>
    rw [List.filterMap_cons]
    cases hf : f i with
    | none => simpa using ih.cons i
    | some v => simpa using ih.cons₂ i

lemma validMomentum_fst_sublist (m : List (Option ℚ)) :
    ((validMomentum m).map Prod.fst).Sublist (List.range m.length) :=
  filterMap_pair_fst_sublist _ _

lemma validMomentum_fst_nodup (m : List (Option ℚ)) :
    ((validMomentum m).map Prod.fst).Nodup :=
  List.Nodup.sublist (validMomentum_fst_sublist m) (List.nodup_range _)

lemma validMomentum_fst_lt (m : List (Option ℚ)) :
    ∀ i ∈ (validMomentum m).map Prod.fst, i < m.length := fun i hi =>
  List.mem_range.mp ((validMomentum_fst_sublist m).subset hi)

lemma sortTake_fst_nodup (le : Nat × ℚ → Nat × ℚ → Bool) (n : Nat)
    (m : List (Option ℚ)) :
    ((((validMomentum m).mergeSort le).take n).map Prod.fst).Nodup := by
  have hperm := List.mergeSort_perm (validMomentum m) le
  have hnodup : (((validMomentum m).mergeSort le).map Prod.fst).Nodup :=
    ((hperm.map Prod.fst).nodup_iff).mpr (validMomentum_fst_nodup m)
  rw [List.map_take]
  exact List.Nodup.sublist (List.take_sublist _ _) hnodup

lemma sortTake_fst_lt (le : Nat × ℚ → Nat × ℚ → Bool) (n : Nat)
    (m : List (Option ℚ)) :
    ∀ i ∈ (((validMomentum m).mergeSort le).take n).map Prod.fst, i < m.length := by
  intro i hi
  rw [List.map_take] at hi
  have hi2 : i ∈ ((validMomentum m).mergeSort le).map Prod.fst :=
    (List.take_sublist _ _).subset hi
  have hperm := (List.mergeSort_perm (validMomentum m) le).map Prod.fst
  exact validMomentum_fst_lt m i (hperm.subset hi2)

lemma sortTake_fst_length (le : Nat × ℚ → Nat × ℚ → Bool) (n : Nat)
    (m : List (Option ℚ)) (h : n ≤ (validMomentum m).length) :
    ((((validMomentum m).mergeSort le).take n).map Prod.fst).length = n := by
  simp [List.length_take, List.length_mergeSort]
  omega

lemma numSelected_le (k : Nat) (m : List (Option ℚ)) :
    numSelected k m ≤ (validMomentum m).length :=
  le_trans (min_le_right _ _) (Nat.div_le_self _ _)

/-- Members of the first n entries of the sorted list are related (by the sort
    order) to every valid entry outside them. -/
lemma sortTake_rel (le : Nat × ℚ → Nat × ℚ → Bool)
    (htrans : ∀ a b c, le a b = true → le b c = true → le a c = true)
    (htotal : ∀ a b, (le a b || le b a) = true)
    (n : Nat) (m : List (Option ℚ)) (p q : Nat × ℚ)
    (hp : p ∈ validMomentum m) (hq : q ∈ validMomentum m)
    (hpin : p.1 ∈ (((validMomentum m).mergeSort le).take n).map Prod.fst)
    (hqout : q.1 ∉ (((validMomentum m).mergeSort le).take n).map Prod.fst) :
    le p q = true := by
  have hperm := List.mergeSort_perm (validMomentum m) le
  have hpairs : List.Pairwise (fun a b => le a b = true)
      ((validMomentum m).mergeSort le) := List.sorted_mergeSort htrans htotal _
  have hfstnodup : (((validMomentum m).mergeSort le).map Prod.fst).Nodup :=
    ((hperm.map Prod.fst).nodup_iff).mpr (validMomentum_fst_nodup m)
  have hp' : p ∈ ((validMomentum m).mergeSort le).take n ++
      ((validMomentum m).mergeSort le).drop n := by
    rw [List.take_append_drop]
    exact (hperm.mem_iff).mpr hp
  have hq' : q ∈ ((validMomentum m).mergeSort le).take n ++
      ((validMomentum m).mergeSort le).drop n := by
    rw [List.take_append_drop]
    exact (hperm.mem_iff).mpr hq
  have hdisj : List.Disjoint
      ((((validMomentum m).mergeSort le).take n).map Prod.fst)
      ((((validMomentum m).mergeSort le).drop n).map Prod.fst) := by
    have happ : ((((validMomentum m).mergeSort le).take n).map Prod.fst ++
        (((validMomentum m).mergeSort le).drop n).map Prod.fst).Nodup := by
      rw [← List.map_append, List.take_append_drop]
      exact hfstnodup
    exact List.disjoint_of_nodup_append happ
  have hptake : p ∈ ((validMomentum m).mergeSort le).take n := by
    rcases List.mem_append.mp hp' with h | h
    · exact h
    · exact absurd (List.mem_map_of_mem Prod.fst h) (fun hc => hdisj hpin hc)
  have hqdrop : q ∈ ((validMomentum m).mergeSort le).drop n := by
    rcases List.mem_append.mp hq' with h | h
    · exact absurd (List.mem_map_of_mem Prod.fst h) hqout
    · exact h
  exact List.Sorted.rel_of_mem_take_of_mem_drop hpairs hptake hqdrop

/-! Indicator-row lemmas. -/

lemma sum_boole_list (l : List Nat) (sel : List Nat) :
    (l.map (fun j => if j ∈ sel then (1 : ℚ) else 0)).sum =
      (l.countP (fun j => decide (j ∈ sel)) : ℚ) := by
  induction l with
  | nil => simp
  | cons a l ih =>
    by_cases h : a ∈ sel <;> simp [List.countP_cons, h, ih, add_comm]

lemma length_filter_range (sel : List Nat) (len : Nat) (hnd : sel.Nodup)
    (hlt : ∀ j ∈ sel, j < len) :
    ((List.range len).filter (fun j => decide (j ∈ sel))).length = sel.length := by
  have hnd2 : ((List.range len).filter (fun j => decide (j ∈ sel))).Nodup :=
    (List.nodup_range len).filter _
  have hperm : ((List.range len).filter (fun j => decide (j ∈ sel))).Perm sel := by
    rw [List.perm_ext_iff_of_nodup hnd2 hnd]
    intro a
    simp only [List.mem_filter, List.mem_range, decide_eq_true_eq]
    exact ⟨fun h => h.2, fun h => ⟨hlt a h, h⟩⟩
  exact hperm.length_eq

lemma sum_presenceRowOf (sel : List Nat) (len : Nat) (hnd : sel.Nodup)
    (hlt : ∀ j ∈ sel, j < len) :
    (presenceRowOf sel len).sum = (sel.length : ℚ) := by
  unfold presenceRowOf
  rw [sum_boole_list, List.countP_eq_length_filter,
    length_filter_range sel len hnd hlt]

lemma presenceRowOf_length (sel : List Nat) (len : Nat) :
    (presenceRowOf sel len).length = len := by
  simp [presenceRowOf]

lemma presenceRowOf_getD (sel : List Nat) (len j : Nat) (h : j < len) :
    (presenceRowOf sel len).getD j 0 = if j ∈ sel then (1 : ℚ) else 0 := by
  have hlen : j < (presenceRowOf sel len).length := by
    rw [presenceRowOf_length]; exact h
  rw [List.getD_eq_getElem _ _ hlen]
  simp [presenceRowOf]

/-! Row-normalisation lemmas. -/

lemma sum_map_div (l : List ℚ) (s : ℚ) :
    (l.map (fun x => x / s)).sum = l.sum / s := by
  induction l with
  | nil => simp
  | cons a l ih => simp [ih, add_div]

lemma sum_map_neg (l : List ℚ) : (l.map (fun x => -x)).sum = -l.sum := by
  induction l with
  | nil => simp
  | cons a l ih => simp [ih]; ring

lemma divRowBySum_sum (row : List ℚ) (h : row.sum ≠ 0) :
    (divRowBySum row).sum = 1 := by
  unfold divRowBySum
  simp only [if_neg h]
  rw [sum_map_div, div_self h]

lemma divRowBySum_length (row : List ℚ) : (divRowBySum row).length = row.length := by
  simp [divRowBySum]

lemma divRowBySum_getD (row : List ℚ) (j : Nat) (h : j < row.length)
    (hs : row.sum ≠ 0) :
    (divRowBySum row).getD j 0 = row.getD j 0 / row.sum := by
  have hlen : j < (divRowBySum row).length := by rw [divRowBySum_length]; exact h
  rw [List.getD_eq_getElem _ _ hlen, List.getD_eq_getElem _ _ h]
  simp [divRowBySum, if_neg hs]

end SPX

namespace SPX

lemma topPresenceRow_length (k : Nat) (m : List (Option ℚ)) :
    (topPresenceRow k m).length = m.length := by
  by_cases h : numSelected k m = 0 <;> simp [topPresenceRow, h, presenceRowOf]

lemma bottomPresenceRow_length (k : Nat) (m : List (Option ℚ)) :
    (bottomPresenceRow k m).length = m.length := by
  by_cases h : numSelected k m = 0 <;> simp [bottomPresenceRow, h, presenceRowOf]

lemma topPresenceRow_eq (k : Nat) (m : List (Option ℚ))
    (h : numSelected k m ≠ 0) :
    topPresenceRow k m =
      presenceRowOf (nlargestIdx (numSelected k m) (validMomentum m)) m.length := by
  simp [topPresenceRow, h]

lemma bottomPresenceRow_eq (k : Nat) (m : List (Option ℚ))
    (h : numSelected k m ≠ 0) :
    bottomPresenceRow k m =
      presenceRowOf (nsmallestIdx (numSelected k m) (validMomentum m)) m.length := by
  simp [bottomPresenceRow, h]

lemma nlargestIdx_nodup (n : Nat) (m : List (Option ℚ)) :
    (nlargestIdx n (validMomentum m)).Nodup := sortTake_fst_nodup descLE n m

lemma nlargestIdx_lt (n : Nat) (m : List (Option ℚ)) :
    ∀ i ∈ nlargestIdx n (validMomentum m), i < m.length := sortTake_fst_lt descLE n m

lemma nlargestIdx_length (n : Nat) (m : List (Option ℚ))
    (h : n ≤ (validMomentum m).length) :
    (nlargestIdx n (validMomentum m)).length = n := sortTake_fst_length descLE n m h

lemma nsmallestIdx_nodup (n : Nat) (m : List (Option ℚ)) :
    (nsmallestIdx n (validMomentum m)).Nodup := sortTake_fst_nodup ascLE n m

lemma nsmallestIdx_lt (n : Nat) (m : List (Option ℚ)) :
    ∀ i ∈ nsmallestIdx n (validMomentum m), i < m.length := sortTake_fst_lt ascLE n m

lemma nsmallestIdx_length (n : Nat) (m : List (Option ℚ))
    (h : n ≤ (validMomentum m).length) :
    (nsmallestIdx n (validMomentum m)).length = n := sortTake_fst_length ascLE n m h

lemma topPresenceRow_sum (k : Nat) (m : List (Option ℚ)) :
    (topPresenceRow k m).sum = (numSelected k m : ℚ) := by
  by_cases h : numSelected k m = 0
  · simp [topPresenceRow, h]
  · rw [topPresenceRow_eq k m h,
      sum_presenceRowOf _ _ (nlargestIdx_nodup _ m) (nlargestIdx_lt _ m),
      nlargestIdx_length _ m (numSelected_le k m)]

lemma bottomPresenceRow_sum (k : Nat) (m : List (Option ℚ)) :
    (bottomPresenceRow k m).sum = (numSelected k m : ℚ) := by
  by_cases h : numSelected k m = 0
  · simp [bottomPresenceRow, h]
  · rw [bottomPresenceRow_eq k m h,
      sum_presenceRowOf _ _ (nsmallestIdx_nodup _ m) (nsmallestIdx_lt _ m),
      nsmallestIdx_length _ m (numSelected_le k m)]

/-- With zero selected sectors the presence and position rows of the period are
    all exact zeros. -/
lemma zeroSelection_rows (k : Nat) (m : List (Option ℚ))
    (h : numSelected k m = 0) :
    topPresenceRow k m = List.replicate m.length 0 ∧
    bottomPresenceRow k m = List.replicate m.length 0 ∧
    longRow k m = List.replicate m.length 0 ∧
    shortRow k m = List.replicate m.length 0 := by
  have htop : topPresenceRow k m = List.replicate m.length 0 := by
    simp [topPresenceRow, h, List.map_const']
  have hbot : bottomPresenceRow k m = List.replicate m.length 0 := by
    simp [bottomPresenceRow, h, List.map_const']
  have hdiv : divRowBySum (List.replicate m.length 0) = List.replicate m.length 0 := by
    simp [divRowBySum, List.map_replicate]
  refine ⟨htop, hbot, ?_, ?_⟩
  · rw [longRow, htop, hdiv]
  · rw [shortRow, hbot, hdiv]
    simp [List.map_replicate]

lemma descLE_trans : ∀ a b c : Nat × ℚ,
    descLE a b = true → descLE b c = true → descLE a c = true := by
  intro a b c hab hbc
  simp [descLE] at hab hbc ⊢
  exact le_trans hbc hab

lemma descLE_total : ∀ a b : Nat × ℚ, (descLE a b || descLE b a) = true := by
  intro a b
  simp [descLE]
  exact le_total b.2 a.2

lemma ascLE_trans : ∀ a b c : Nat × ℚ,
    ascLE a b = true → ascLE b c = true → ascLE a c = true := by
  intro a b c hab hbc
  simp [ascLE] at hab hbc ⊢
  exact le_trans hab hbc

lemma ascLE_total : ∀ a b : Nat × ℚ, (ascLE a b || ascLE b a) = true := by
  intro a b
  simp [ascLE]
  exact le_total a.2 b.2

/-- C5: per period, exactly min(k, available_sectors // 2) sectors are picked
    on each side: the selected index lists have exactly that length, the
    presence rows sum to exactly that count, the long side consists of
    top-scored sectors and the short side of bottom-scored sectors, and a
    period with zero selections leaves every presence and position entry an
    exact zero. -/
theorem c5_selection :
    ∀ (k : Nat) (m : List (Option ℚ)),
      numSelected k m = min k ((validMomentum m).length / 2) ∧
      (nlargestIdx (numSelected k m) (validMomentum m)).length = numSelected k m ∧
      (nsmallestIdx (numSelected k m) (validMomentum m)).length = numSelected k m ∧
      (topPresenceRow k m).sum = (numSelected k m : ℚ) ∧
      (bottomPresenceRow k m).sum = (numSelected k m : ℚ) ∧
      (∀ p ∈ validMomentum m, ∀ q ∈ validMomentum m,
        p.1 ∈ nlargestIdx (numSelected k m) (validMomentum m) →
        q.1 ∉ nlargestIdx (numSelected k m) (validMomentum m) → q.2 ≤ p.2) ∧
      (∀ p ∈ validMomentum m, ∀ q ∈ validMomentum m,
        p.1 ∈ nsmallestIdx (numSelected k m) (validMomentum m) →
        q.1 ∉ nsmallestIdx (numSelected k m) (validMomentum m) → p.2 ≤ q.2) ∧
      (numSelected k m = 0 →
        topPresenceRow k m = List.replicate m.length 0 ∧
        bottomPresenceRow k m = List.replicate m.length 0 ∧
        longRow k m = List.replicate m.length 0 ∧
        shortRow k m = List.replicate m.length 0) := by
  intro k m
  refine ⟨rfl, nlargestIdx_length _ m (numSelected_le k m),
    nsmallestIdx_length _ m (numSelected_le k m),
    topPresenceRow_sum k m, bottomPresenceRow_sum k m, ?_, ?_, zeroSelection_rows k m⟩
  · intro p hp q hq hpin hqout
    have h := sortTake_rel descLE descLE_trans descLE_total
      (numSelected k m) m p q hp hq hpin hqout
    simpa [descLE] using h
  · intro p hp q hq hpin hqout
    have h := sortTake_rel ascLE ascLE_trans ascLE_total
      (numSelected k m) m p q hp hq hpin hqout
    simpa [ascLE] using h

end SPX

namespace SPX

/-- C4: in a period with n > 0 selected sectors per side, every selected long
    sector gets weight 1/n and the long row sums to 1; every selected short
    sector gets weight -(1/n) and the short row sums to -1 (pre-inversion);
    unselected sectors get exact 0; a period with zero selections yields rows
    of exact zeros, not NaN. -/
theorem c4_weight_normalization :
    ∀ (k : Nat) (m : List (Option ℚ)),
      (0 < numSelected k m →
        (longRow k m).sum = 1 ∧
        (shortRow k m).sum = -1 ∧
        (∀ j, j < m.length →
          (longRow k m).getD j 0 =
            if j ∈ nlargestIdx (numSelected k m) (validMomentum m)
            then 1 / (numSelected k m : ℚ) else 0) ∧
        (∀ j, j < m.length →
          (shortRow k m).getD j 0 =
            if j ∈ nsmallestIdx (numSelected k m) (validMomentum m)
            then -(1 / (numSelected k m : ℚ)) else 0)) ∧
      (numSelected k m = 0 →
        longRow k m = List.replicate m.length 0 ∧
        shortRow k m = List.replicate m.length 0) := by
  intro k m
  constructor
  · intro hpos
    have hne : numSelected k m ≠ 0 := Nat.pos_iff_ne_zero.mp hpos
    have hcast : ((numSelected k m : ℚ)) ≠ 0 := Nat.cast_ne_zero.mpr hne
    have htopsum : (topPresenceRow k m).sum ≠ 0 := by
      rw [topPresenceRow_sum]; exact hcast
    have hbotsum : (bottomPresenceRow k m).sum ≠ 0 := by
      rw [bottomPresenceRow_sum]; exact hcast
    refine ⟨?_, ?_, ?_, ?_⟩
    · rw [longRow, divRowBySum_sum _ htopsum]
    · rw [shortRow, sum_map_neg, divRowBySum_sum _ hbotsum]
    · intro j hj
      have hjlen : j < (topPresenceRow k m).length := by
        rw [topPresenceRow_length]; exact hj
      rw [longRow, divRowBySum_getD _ j hjlen htopsum, topPresenceRow_sum,
        topPresenceRow_eq k m hne, presenceRowOf_getD _ _ _ hj]
      split_ifs <;> simp
    · intro j hj
      have hjb : j < (bottomPresenceRow k m).length := by
        rw [bottomPresenceRow_length]; exact hj
      have hjd : j < (divRowBySum (bottomPresenceRow k m)).length := by
        rw [divRowBySum_length]; exact hjb
      have hjs : j < ((divRowBySum (bottomPresenceRow k m)).map (fun x => -x)).length := by
        simpa using hjd
      rw [shortRow, List.getD_eq_getElem _ _ hjs, List.getElem_map,
        ← List.getD_eq_getElem _ 0 hjd,
        divRowBySum_getD _ j hjb hbotsum, bottomPresenceRow_sum,
        bottomPresenceRow_eq k m hne, presenceRowOf_getD _ _ _ hj]
      split_ifs <;> simp
  · intro h
    exact ⟨(zeroSelection_rows k m h).2.2.1, (zeroSelection_rows k m h).2.2.2⟩

/-- Witness for C4 on a two-sector period with one selection per side. -/
theorem c4_weight_normalization_witness :
    (longRow 1 [some 1, some 2]).sum = 1 ∧
    (shortRow 1 [some 1, some 2]).sum = -1 := by
  have h := (c4_weight_normalization 1 [some 1, some 2]).1 (by decide)
  exact ⟨h.1, h.2.1⟩

/-- Witness for C5: on a two-sector period the higher-scored sector beats the
    unselected one, and a one-sector period selects nothing and zeroes its
    position row. -/
theorem c5_selection_witness :
    ((0, (1 : ℚ)).2 ≤ ((1 : Nat), (2 : ℚ)).2) ∧
    longRow 5 [some 1] = List.replicate 1 0 := by
  have hv : validMomentum [some 1, some 2] = [(0, 1), (1, 2)] := by decide
  have hn : numSelected 1 [some 1, some 2] = 1 := by decide
  have hm : (([((0 : Nat), (1 : ℚ)), (1, 2)]).mergeSort descLE) = [(1, 2), (0, 1)] := by
    simp [List.mergeSort, List.merge, descLE]
  constructor
  · refine (c5_selection 1 [some 1, some 2]).2.2.2.2.2.1 (1, 2) ?_ (0, 1) ?_ ?_ ?_
    · rw [hv]; norm_num
    · rw [hv]; norm_num
    · simp only [hn, hv, nlargestIdx, hm]
      decide
    · simp only [hn, hv, nlargestIdx, hm]
      decide
  · exact ((c5_selection 5 [some 1]).2.2.2.2.2.2.2 (by decide)).2.2.1

end SPX
